import Mathlib

/-!
Verification of the Gokoban grid puzzle simulation engine.

This file shallowly embeds the logical core of the game (the 3D occupancy
grid, level parsing, and the rule engine: player steps, box pushing,
gravity, elevators, pad completion) as executable Lean definitions, and
proves properties about them.

Modelling conventions:
* The Go grid `[][][]GridCell` is embedded as a total function
  `GridLoc → Option MapObj` (the occupancy view); `nil` becomes `none`.
  Grid reads in Go panic out of bounds; operations whose loops are bounded
  in Go only by the (finite) array extent take an explicit fuel argument
  here sized to the array height, and return `Option` results where the Go
  code could panic.
* Presentation-only effects (meshes, lights, sounds, node positions,
  rotations, the visual `-20` fall target) are omitted; only the logical
  occupancy, object locations, animation queue entries, step counter and
  the `animating` latch are modelled.
* `animate(obj, dest, delete, cb)` mutates the grid immediately
  (clear source; unless deleting, write destination); the callback-driven
  follow-up transitions are modelled as separate functions.
-/

/-- Integer grid coordinate: depth row `z`, column `x`, floor `y`. -/
structure GridLoc where
  z : Int
  x : Int
  y : Int
deriving DecidableEq

/-- The closed set of map object variants.  An `Elevator` carries its
inclusive vertical range `[low, high]`. -/
inductive MapObj where
  | gopher
  | box
  | block
  | pad
  | elevator (low high : Int)
deriving DecidableEq

/-- Pushability flags as set by the `New*` constructors in `mapobj.go`:
Gopher and Box are pushable; Block, Pad and Elevator are not. -/
def MapObj.isPushable : MapObj → Bool
  | .gopher => true
  | .box => true
  | _ => false

/-- The occupancy grid: at most one occupant per cell, `none` is air. -/
def Grid := GridLoc → Option MapObj

/-- True when the cell holds a pushable occupant (`c != nil && c.IsPushable()`). -/
def pushableOcc (g : Grid) (q : GridLoc) : Bool :=
  match g q with
  | some o => o.isPushable
  | none => false

/-- `LevelData`: the occupancy grid plus the parse-time bookkeeping lists. -/
structure LevelData where
  grid : Grid
  gopherInit : GridLoc
  boxesInit : List GridLoc
  pads : List GridLoc

/-- `(ld *LevelData) Get(loc)`. -/
def LevelData.Get (ld : LevelData) (loc : GridLoc) : Option MapObj :=
  ld.grid loc

/-- `(ld *LevelData) Set(loc, gc)` (passing `nil` is `none`). -/
def LevelData.Set (ld : LevelData) (loc : GridLoc) (gc : Option MapObj) : LevelData :=
  { ld with grid := fun q => if q = loc then gc else ld.grid q }

/-- `(ld *LevelData) IsPad(pl)`: linear scan of `ld.pads` for an exact
(`z`, `x` and `y`) match. -/
def LevelData.IsPad (ld : LevelData) (pl : GridLoc) : Bool :=
  ld.pads.any (fun a => a = pl)

/-- `(l *Level) levelComplete()`: every recorded pad location currently
holds a Box occupant. -/
def levelComplete (ld : LevelData) : Bool :=
  ld.pads.all (fun p => match ld.Get p with | some .box => true | _ => false)

/-- Grid effect of `animate(obj, dest, false, cb)`: clear the source cell,
then write the moving object (the occupant read at the source before the
clear) to the destination cell. -/
def moveObj (g : Grid) (src tgt : GridLoc) : Grid :=
  fun q => if q = tgt then g src else if q = src then none else g q

/-- Claim C1: `levelComplete()` is true iff every recorded pad location
holds a Box occupant in the grid; placing a Box on the last unoccupied pad
location makes it true, and removing a Box from any pad location makes it
false. -/
theorem levelComplete_iff_all_pads_boxed (ld : LevelData) (p : GridLoc)
    (hp : p ∈ ld.pads) :
    (levelComplete ld = true ↔ ∀ q ∈ ld.pads, ld.Get q = some .box) ∧
    ((∀ q ∈ ld.pads, q ≠ p → ld.Get q = some .box) →
      levelComplete (ld.Set p (some .box)) = true) ∧
    levelComplete (ld.Set p none) = false := by
  have hmatch : ∀ (o : Option MapObj),
      (match o with | some .box => true | _ => false) = true ↔ o = some .box := by
    intro o
    cases o with
    | none => simp
    | some m => cases m <;> simp
  refine ⟨?_, ?_, ?_⟩
  · constructor
    · intro h q hq
      have := (List.all_eq_true.mp h) q hq
      exact (hmatch _).mp this
    · intro h
      refine List.all_eq_true.mpr ?_
      intro q hq
      exact (hmatch _).mpr (h q hq)
  · intro h
    refine List.all_eq_true.mpr ?_
    intro q hq
    by_cases hqp : q = p
    · subst hqp
      simp [LevelData.Set, LevelData.Get]
    · have : (ld.Set p (some .box)).Get q = some .box := by
        simp [LevelData.Set, LevelData.Get, hqp]
        have := h q hq hqp
        simpa [LevelData.Get] using this
      exact (hmatch _).mpr this
  · refine (Bool.eq_false_iff).mpr ?_
    intro hall
    have := (List.all_eq_true.mp hall) p hp
    have hget : (ld.Set p none).Get p = some MapObj.box := (hmatch _).mp this
    simp [LevelData.Set, LevelData.Get] at hget

/-- Concrete one-pad level used by the C1 witness: a single Box sits on the
single pad location `(0,0,1)`. -/
def onePadLevel : LevelData where
  grid := fun q => if q = ⟨0, 0, 1⟩ then some .box else none
  gopherInit := ⟨0, 0, 0⟩
  boxesInit := []
  pads := [⟨0, 0, 1⟩]

/-- Witness for C1 at a concrete level: one pad holding a box, so all three
conjuncts are exercised at `p = (0,0,1)`. -/
theorem levelComplete_iff_all_pads_boxed_witness :
    (GridLoc.mk 0 0 1 ∈ onePadLevel.pads) ∧
    ((levelComplete onePadLevel = true ↔
        ∀ q ∈ onePadLevel.pads, onePadLevel.Get q = some .box) ∧
      ((∀ q ∈ onePadLevel.pads, q ≠ ⟨0, 0, 1⟩ → onePadLevel.Get q = some .box) →
        levelComplete (onePadLevel.Set ⟨0, 0, 1⟩ (some .box)) = true) ∧
      levelComplete (onePadLevel.Set ⟨0, 0, 1⟩ none) = false) :=
  ⟨by decide, levelComplete_iff_all_pads_boxed onePadLevel ⟨0, 0, 1⟩ (by decide)⟩

/-- Counterexample to claim C8: `IsPad` is an exact three-coordinate match,
not a 2D horizontal-column test.  With the single pad location `(0,0,1)`,
the location `(0,0,2)` agrees on `z` and `x` but `IsPad` returns false. -/
theorem isPad_not_horizontal_counterexample :
    (GridLoc.mk 0 0 1).z = (GridLoc.mk 0 0 2).z ∧
    (GridLoc.mk 0 0 1).x = (GridLoc.mk 0 0 2).x ∧
    onePadLevel.IsPad ⟨0, 0, 2⟩ = false := by
  refine ⟨rfl, rfl, ?_⟩
  decide

/-- Claim C8 (amended): `IsPad(loc)` returns true iff `loc` exactly matches
(on all of `z`, `x` and `y`) some recorded pad location. -/
theorem isPad_iff_mem_pads (ld : LevelData) (pl : GridLoc) :
    ld.IsPad pl = true ↔ pl ∈ ld.pads := by
  unfold LevelData.IsPad
  rw [List.any_eq_true]
  constructor
  · rintro ⟨a, ha, heq⟩
    have : a = pl := by simpa using heq
    simpa [this] using ha
  · intro h
    exact ⟨pl, h, by simp⟩

/-- Embedding of `strings.Split(data, sep)` for the single-character
separator used by the parser, on rune lists. -/
def splitOnChar (sep : Char) : List Char → List (List Char)
  | [] => [[]]
  | c :: cs =>
    let r := splitOnChar sep cs
    if c = sep then [] :: r
    else (c :: r.headD []) :: r.tail

/-- Split at individual whitespace characters (helper for `fields`). -/
def splitWs : List Char → List (List Char)
  | [] => [[]]
  | c :: cs =>
    let r := splitWs cs
    if c.isWhitespace then [] :: r
    else (c :: r.headD []) :: r.tail

/-- Embedding of `strings.Fields`: the maximal runs of non-whitespace
characters, in order. -/
def fields (l : List Char) : List (List Char) :=
  (splitWs l).filter (fun w => w ≠ [])

/-- Elevator shaft scan in `ParseLevel`:
`for high = k; (high+1) < len(cell) && cell[high+1] == "-"; high++`. -/
def elevHigh (cell : List Char) (k : Nat) : Nat :=
  k + ((cell.drop (k + 1)).takeWhile (fun c => c = '-')).length

/-- One character of one column token in `ParseLevel`'s main loop, at row
`i`, column `j`, floor `kc.1`, character `kc.2`.  The `.` spacer and any
unrecognized character (including the shaft marker `-`, which has no case
in the switch) leave the level data unchanged. -/
def applyChar (cell : List Char) (i j : Nat) (ld : LevelData) (kc : Nat × Char) : LevelData :=
  let loc : GridLoc := ⟨(i : Int), (j : Int), (kc.1 : Int)⟩
  if kc.2 = 's' then { ld.Set loc (some .gopher) with gopherInit := loc }
  else if kc.2 = ']' then ld.Set loc (some .block)
  else if kc.2 = 'x' then { ld.Set loc (some .box) with boxesInit := ld.boxesInit ++ [loc] }
  else if kc.2 = 'o' then { ld.Set loc (some .pad) with pads := ld.pads ++ [loc] }
  else if kc.2 = 'e' then
    ld.Set loc (some (.elevator (kc.1 : Int) ((elevHigh cell kc.1 : Nat) : Int)))
  else ld

/-- `new(LevelData)`: Go zero values. -/
def emptyLevelData : LevelData where
  grid := fun _ => none
  gopherInit := ⟨0, 0, 0⟩
  boxesInit := []
  pads := []

/-- Embedding of `ParseLevel(data)`.  Rows are newline-separated; each row
is padded with a `". "` prefix and `" ."` suffix; an all-`"."` padding row
is added above and below; each whitespace-separated token of a row is a
vertical column read bottom floor first, at `loc = {i, j, k}`.  The
function always returns a `nil` error, mirroring `return ld, nil`.  The
slice allocation, `nfloors` computation and `center` are memory and
presentation setup with no logical content in the functional-grid
embedding and are omitted here. -/
def ParseLevel (data : String) : LevelData × Option String :=
  let rows0 := (splitOnChar '\n' data.toList).map (fun row => ". ".toList ++ row ++ " .".toList)
  let ncols := (fields (rows0.headD [])).length
  let padding_row := (List.replicate ncols ". ".toList).flatten
  let rows := [padding_row] ++ rows0 ++ [padding_row]
  let ld := rows.enum.foldl (fun ld ir =>
    ((fields ir.2).enum).foldl (fun ld jc =>
      (jc.2.enum).foldl (applyChar jc.2 ir.1 jc.1) ld) ld) emptyLevelData
  (ld, none)

/-- Counterexample to claim C7: the two-glyph level description `"ss"` is
accepted (the returned error is `nil`) and after parsing two distinct
Gopher occupants exist, at floors 0 and 1 of the single column. -/
theorem parseLevel_two_starts_accepted_counterexample :
    (ParseLevel "ss").2 = none ∧
    (ParseLevel "ss").1.grid ⟨1, 1, 0⟩ = some .gopher ∧
    (ParseLevel "ss").1.grid ⟨1, 1, 1⟩ = some .gopher := by
  refine ⟨rfl, ?_, ?_⟩ <;> decide

/-- Claim C7 (amended): `ParseLevel` never rejects its input — the error
component is always `nil` — and a description with two `s` glyphs parses
successfully with two Gopher occupants, so accepted levels need not
contain exactly one Gopher. -/
theorem parseLevel_always_succeeds :
    (∀ data : String, (ParseLevel data).2 = none) ∧
    ((ParseLevel "ss").1.grid ⟨1, 1, 0⟩ = some .gopher ∧
      (ParseLevel "ss").1.grid ⟨1, 1, 1⟩ = some .gopher) :=
  ⟨fun _ => rfl, by decide, by decide⟩

/-- A property preserved by every fold step is preserved by `List.foldl`. -/
theorem levelFoldPreserve {α β : Type} (P : α → Prop) (f : α → β → α)
    (h : ∀ a b, P a → P (f a b)) : ∀ (l : List β) (a : α), P a → P (l.foldl f a) := by
  intro l
  induction l with
  | nil => intro a ha; exact ha
  | cons b bs ih => intro a ha; exact ih _ (h a b ha)

/-- Every elevator stored in the grid has `low ≤ high`. -/
def ElevRangesOK (g : Grid) : Prop :=
  ∀ loc low high, g loc = some (MapObj.elevator low high) → low ≤ high

/-- Writing a value that is not an ill-ranged elevator preserves `ElevRangesOK`. -/
theorem setElevOK (ld : LevelData) (loc0 : GridLoc) (v : Option MapObj)
    (hv : ∀ low high, v = some (MapObj.elevator low high) → low ≤ high)
    (h : ElevRangesOK ld.grid) : ElevRangesOK (ld.Set loc0 v).grid := by
  intro loc low high hl
  simp only [LevelData.Set] at hl
  by_cases hq : loc = loc0
  · rw [if_pos hq] at hl
    exact hv _ _ hl
  · rw [if_neg hq] at hl
    exact h _ _ _ hl

/-- `applyChar` only ever writes elevators with `low ≤ high`: the shaft
scan starts `high` at `k = low` and only increments it. -/
theorem applyCharElevOK (cell : List Char) (i j : Nat) (ld : LevelData) (kc : Nat × Char)
    (hld : ElevRangesOK ld.grid) :
    ElevRangesOK (applyChar cell i j ld kc).grid := by
  unfold applyChar
  dsimp only
  split_ifs with h1 h2 h3 h4 h5
  · exact setElevOK _ _ _ (fun low high hv => by simp at hv) hld
  · exact setElevOK _ _ _ (fun low high hv => by simp at hv) hld
  · exact setElevOK _ _ _ (fun low high hv => by simp at hv) hld
  · exact setElevOK _ _ _ (fun low high hv => by simp at hv) hld
  · refine setElevOK _ _ _ ?_ hld
    intro low high hv
    simp only [Option.some.injEq, MapObj.elevator.injEq] at hv
    obtain ⟨e1, e2⟩ := hv
    have hk : kc.1 ≤ elevHigh cell kc.1 := Nat.le_add_right _ _
    rw [← e1, ← e2]
    exact_mod_cast hk
  · exact hld

/-- Every elevator produced by `ParseLevel` satisfies `low ≤ high`. -/
theorem parseLevelElevOK (data : String) : ElevRangesOK (ParseLevel data).1.grid := by
  unfold ParseLevel
  dsimp only
  refine levelFoldPreserve (fun ld : LevelData => ElevRangesOK ld.grid) _ ?_ _ _ ?_
  · intro a b ha
    refine levelFoldPreserve (fun ld : LevelData => ElevRangesOK ld.grid) _ ?_ _ _ ha
    intro a2 b2 ha2
    refine levelFoldPreserve (fun ld : LevelData => ElevRangesOK ld.grid) _ ?_ _ _ ha2
    intro a3 b3 ha3
    exact applyCharElevOK _ _ _ _ _ ha3
  · intro loc low high h
    simp [emptyLevelData] at h

/-- The downward scan of `posAfterFallFrom`:
`for ; pos.y >= 0 && l.data.Get(pos) == nil; pos.y-- {}` starting at `y`.
The fuel argument stands for the finite array height that bounds the Go
loop; callers pass enough fuel for the loop condition to be the only exit. -/
def scanDown (g : Grid) (z x : Int) : Nat → Int → Int
  | 0, y => y
  | f + 1, y => if 0 ≤ y ∧ g ⟨z, x, y⟩ = none then scanDown g z x f (y - 1) else y

/-- `(l *Level) posAfterFallFrom(pos)`: decrement `y`, scan down through
empty cells while `y ≥ 0`, then increment `y` back. -/
def posAfterFallFrom (g : Grid) (pos : GridLoc) : GridLoc :=
  ⟨pos.z, pos.x, scanDown g pos.z pos.x pos.y.toNat (pos.y - 1) + 1⟩

/-- Grid effect of `(l *Level) fall(obj)`: if the landing floor is 0 the
object is deleted (`animate` with `delete = true` clears the source and
writes nowhere; the `-20` target is visual only); otherwise the object
moves to the landing cell. -/
def fallGrid (g : Grid) (pos : GridLoc) : Grid :=
  let pfall := posAfterFallFrom g pos
  if pfall.y = 0 then (fun q => if q = pos then none else g q)
  else moveObj g pos pfall

theorem scanDown_all_empty (g : Grid) (z x : Int) :
    ∀ (n : Nat) (y0 : Int), y0 + 1 = (n : Int) →
      (∀ y', 0 ≤ y' → y' ≤ y0 → g ⟨z, x, y'⟩ = none) →
      scanDown g z x n y0 = -1 := by
  intro n
  induction n with
  | zero =>
    intro y0 h0 _
    have hy : y0 = -1 := by omega
    rw [hy]
    rfl
  | succ m ih =>
    intro y0 h0 hemp
    have hy0 : 0 ≤ y0 := by omega
    rw [scanDown, if_pos ⟨hy0, hemp y0 hy0 le_rfl⟩]
    exact ih (y0 - 1) (by omega) (fun y' ha hb => hemp y' ha (by omega))

theorem scanDown_stops (g : Grid) (z x : Int) :
    ∀ (n : Nat) (y0 t : Int), y0 + 1 ≤ (n : Int) →
      0 ≤ t → t ≤ y0 → g ⟨z, x, t⟩ ≠ none →
      (∀ y', t < y' → y' ≤ y0 → g ⟨z, x, y'⟩ = none) →
      scanDown g z x n y0 = t := by
  intro n
  induction n with
  | zero =>
    intro y0 t h0 ht1 ht2 _ _
    omega
  | succ m ih =>
    intro y0 t h0 ht1 ht2 hocc hemp
    by_cases hyt : y0 = t
    · rw [scanDown, if_neg]
      · exact hyt
      · rw [hyt]
        exact fun hc => hocc hc.2
    · have hlt : t < y0 := lt_of_le_of_ne ht2 (fun hc => hyt hc.symm)
      rw [scanDown, if_pos ⟨by omega, hemp y0 hlt le_rfl⟩]
      exact ih (y0 - 1) t (by omega) ht1 (by omega) hocc
        (fun y' ha hb => hemp y' ha (by omega))

/-- Claim C3: for `pos.y ≥ 1`, `posAfterFallFrom` keeps `z` and `x`; it
returns floor 0 when every cell strictly below `pos` in the column is
empty, and one above the highest occupied cell below `pos` otherwise; and
when the landing floor is 0, `fall` clears the source cell and writes the
object to no cell. -/
theorem posAfterFallFrom_spec (g : Grid) (pos : GridLoc) (h1 : 1 ≤ pos.y) :
    (posAfterFallFrom g pos).z = pos.z ∧
    (posAfterFallFrom g pos).x = pos.x ∧
    ((∀ y', 0 ≤ y' → y' < pos.y → g ⟨pos.z, pos.x, y'⟩ = none) →
      (posAfterFallFrom g pos).y = 0) ∧
    (∀ t, 0 ≤ t → t < pos.y → g ⟨pos.z, pos.x, t⟩ ≠ none →
      (∀ y', t < y' → y' < pos.y → g ⟨pos.z, pos.x, y'⟩ = none) →
      (posAfterFallFrom g pos).y = t + 1) ∧
    ((posAfterFallFrom g pos).y = 0 →
      fallGrid g pos pos = none ∧ ∀ q, q ≠ pos → fallGrid g pos q = g q) := by
  refine ⟨rfl, rfl, ?_, ?_, ?_⟩
  · intro hemp
    show scanDown g pos.z pos.x pos.y.toNat (pos.y - 1) + 1 = 0
    rw [scanDown_all_empty g pos.z pos.x pos.y.toNat (pos.y - 1) (by omega)
      (fun y' ha hb => hemp y' ha (by omega))]
    omega
  · intro t ht1 ht2 hocc hemp
    show scanDown g pos.z pos.x pos.y.toNat (pos.y - 1) + 1 = t + 1
    rw [scanDown_stops g pos.z pos.x pos.y.toNat (pos.y - 1) t (by omega) ht1 (by omega)
      hocc (fun y' ha hb => hemp y' ha (by omega))]
  · intro h0
    unfold fallGrid
    rw [if_pos h0]
    exact ⟨by simp, fun q hq => by simp [hq]⟩

/-- Concrete grid for the C3 witness: a single block at the column bottom. -/
def fallDemoGrid : Grid := fun q => if q = ⟨0, 0, 0⟩ then some .block else none

/-- Witness for C3: falling from floor 2 in a column whose only occupant
is a block at floor 0 lands one above it, at floor 1. -/
theorem posAfterFallFrom_spec_witness :
    (posAfterFallFrom fallDemoGrid ⟨0, 0, 2⟩).y = 1 := by
  have h := (posAfterFallFrom_spec fallDemoGrid ⟨0, 0, 2⟩ (by decide)).2.2.2.1 0
    (by decide) (by decide) (by decide)
    (fun y' hy1 hy2 => by
      have hy1' : (0 : Int) < y' := hy1
      have hy2' : y' < 2 := hy2
      have hy : y' = 1 := by omega
      rw [hy]
      rfl)
  simpa using h

/-- The cell directly above: `getCellRelativeTo(box, 0, 0, 1)` / `dest.y++`. -/
def upLoc (q : GridLoc) : GridLoc := ⟨q.z, q.x, q.y + 1⟩

/-- The cell `i` floors above `bl` in its column. -/
def stackCell (bl : GridLoc) (i : Nat) : GridLoc := ⟨bl.z, bl.x, bl.y + (i : Int)⟩

theorem stackCell_zero (bl : GridLoc) : stackCell bl 0 = bl := by
  cases bl
  simp [stackCell]

theorem stackCell_succ (bl : GridLoc) (i : Nat) :
    stackCell bl (i + 1) = stackCell (upLoc bl) i := by
  show (⟨bl.z, bl.x, bl.y + ((i + 1 : Nat) : Int)⟩ : GridLoc) = ⟨bl.z, bl.x, bl.y + 1 + (i : Int)⟩
  have hy : bl.y + ((i + 1 : Nat) : Int) = bl.y + 1 + (i : Int) := by
    push_cast
    ring
  rw [hy]

theorem range_map_stackCell (bl : GridLoc) (m : Nat) :
    (List.range (m + 1)).map (stackCell bl) =
      bl :: (List.range m).map (stackCell (upLoc bl)) := by
  rw [List.range_succ_eq_map, List.map_cons, stackCell_zero, List.map_map]
  have hc : (stackCell bl) ∘ Nat.succ = stackCell (upLoc bl) :=
    funext (fun i => stackCell_succ bl i)
  rw [hc]

theorem pushableOcc_true_iff (g : Grid) (q : GridLoc) :
    pushableOcc g q = true ↔ ∃ o, g q = some o ∧ o.isPushable = true := by
  unfold pushableOcc
  cases h : g q <;> simp

/-- The classification loop of `pushBox`: walk up the pile of pushable
objects; while no barrier has been found and the horizontal destination at
the current floor is empty, the object goes to `toMove`, otherwise the
barrier latch is set and the object (and everything above) goes to
`toFall`.  The grid is not mutated while scanning.  Fuel stands for the
finite array height bounding the Go loop; `none` models running off the
grid. -/
def pushScan (g : Grid) : Nat → GridLoc → GridLoc → Bool → Option (List GridLoc × List GridLoc)
  | 0, _, _, _ => none
  | f + 1, boxLoc, dest, found =>
    match g boxLoc with
    | none => some ([], [])
    | some o =>
      if o.isPushable then
        if found = false ∧ g dest = none then
          (pushScan g f (upLoc boxLoc) (upLoc dest) false).map
            (fun p => (boxLoc :: p.1, p.2))
        else
          (pushScan g f (upLoc boxLoc) (upLoc dest) true).map
            (fun p => (p.1, boxLoc :: p.2))
      else some ([], [])

/-- The move loop of `pushBox`: each queued object is animated to
`{dest.z, dest.x, box.Location().y}` (its own floor, in the destination
column), mutating the grid immediately in queue order. -/
def pushApply (g : Grid) (ms : List GridLoc) (dz dx : Int) : Grid :=
  ms.foldl (fun g bl => moveObj g bl ⟨dz, dx, bl.y⟩) g

/-- `(l *Level) pushBox(box, dest)`: classify the pile, move the `toMove`
prefix horizontally at once, and hand the `toFall` suffix to the deferred
fall callbacks (their grid cells are untouched here).  The pad-exit check
at the top of the Go function is presentation-only. -/
def pushBox (g : Grid) (fuel : Nat) (boxLoc dest : GridLoc) : Option (Grid × List GridLoc) :=
  (pushScan g fuel boxLoc dest false).map
    (fun p => (pushApply g p.1 dest.z dest.x, p.2))

theorem pushScan_found (g : Grid) :
    ∀ (n fuel : Nat) (bl dest : GridLoc), n + 1 ≤ fuel →
      (∀ i, i < n → pushableOcc g (stackCell bl i) = true) →
      pushableOcc g (stackCell bl n) = false →
      pushScan g fuel bl dest true = some ([], (List.range n).map (stackCell bl)) := by
  intro n
  induction n with
  | zero =>
    intro fuel bl dest hfu hstack htop
    obtain ⟨f, rfl⟩ : ∃ f, fuel = f + 1 := ⟨fuel - 1, by omega⟩
    rw [stackCell_zero] at htop
    rw [pushScan]
    cases hgb : g bl with
    | none => rfl
    | some o =>
      have ho : o.isPushable = false := by
        unfold pushableOcc at htop
        rw [hgb] at htop
        exact htop
      simp [ho]
  | succ m ih =>
    intro fuel bl dest hfu hstack htop
    obtain ⟨f, rfl⟩ : ∃ f, fuel = f + 1 := ⟨fuel - 1, by omega⟩
    have h0 : pushableOcc g bl = true := by
      have := hstack 0 (by omega)
      rwa [stackCell_zero] at this
    obtain ⟨o, hgb, hop⟩ := (pushableOcc_true_iff g bl).mp h0
    rw [pushScan, hgb]
    simp only [hop, if_true]
    rw [if_neg (by simp)]
    rw [ih f (upLoc bl) (upLoc dest) (by omega)
      (fun i hi => by rw [← stackCell_succ]; exact hstack (i + 1) (by omega))
      (by rw [← stackCell_succ]; exact htop)]
    rw [range_map_stackCell]
    rfl

theorem pushScan_split (g : Grid) :
    ∀ (n fuel : Nat) (bl dest : GridLoc), n + 1 ≤ fuel →
      (∀ i, i < n → pushableOcc g (stackCell bl i) = true) →
      pushableOcc g (stackCell bl n) = false →
      ∃ k, k ≤ n ∧
        (∀ i, i < k → g (stackCell dest i) = none) ∧
        (k < n → g (stackCell dest k) ≠ none) ∧
        pushScan g fuel bl dest false =
          some (((List.range n).map (stackCell bl)).take k,
                ((List.range n).map (stackCell bl)).drop k) := by
  intro n
  induction n with
  | zero =>
    intro fuel bl dest hfu hstack htop
    obtain ⟨f, rfl⟩ : ∃ f, fuel = f + 1 := ⟨fuel - 1, by omega⟩
    rw [stackCell_zero] at htop
    refine ⟨0, le_rfl, fun i hi => absurd hi (by omega), fun h => absurd h (by omega), ?_⟩
    rw [pushScan]
    cases hgb : g bl with
    | none => rfl
    | some o =>
      have ho : o.isPushable = false := by
        unfold pushableOcc at htop
        rw [hgb] at htop
        exact htop
      simp [ho]
  | succ m ih =>
    intro fuel bl dest hfu hstack htop
    obtain ⟨f, rfl⟩ : ∃ f, fuel = f + 1 := ⟨fuel - 1, by omega⟩
    have h0 : pushableOcc g bl = true := by
      have := hstack 0 (by omega)
      rwa [stackCell_zero] at this
    obtain ⟨o, hgb, hop⟩ := (pushableOcc_true_iff g bl).mp h0
    by_cases hd : g dest = none
    · obtain ⟨k', hk1, hk2, hk3, hk4⟩ := ih f (upLoc bl) (upLoc dest) (by omega)
        (fun i hi => by rw [← stackCell_succ]; exact hstack (i + 1) (by omega))
        (by rw [← stackCell_succ]; exact htop)
      refine ⟨k' + 1, by omega, ?_, ?_, ?_⟩
      · intro i hi
        cases i with
        | zero => rwa [stackCell_zero]
        | succ i' => rw [stackCell_succ]; exact hk2 i' (by omega)
      · intro h
        rw [stackCell_succ]
        exact hk3 (by omega)
      · rw [pushScan, hgb]
        simp only [hop, if_true]
        rw [if_pos ⟨by simp, hd⟩, hk4]
        rw [range_map_stackCell]
        rfl
    · refine ⟨0, by omega, fun i hi => absurd hi (by omega),
        fun _ => by rwa [stackCell_zero], ?_⟩
      rw [pushScan, hgb]
      simp only [hop, if_true]
      rw [if_neg (by simp [hd])]
      rw [pushScan_found g m f (upLoc bl) (upLoc dest) (by omega)
        (fun i hi => by rw [← stackCell_succ]; exact hstack (i + 1) (by omega))
        (by rw [← stackCell_succ]; exact htop)]
      rw [range_map_stackCell]
      rfl

theorem gridLoc_ne_of_y {a b : GridLoc} (h : a.y ≠ b.y) : a ≠ b :=
  fun hc => h (congrArg GridLoc.y hc)

theorem gridLoc_ne_of_col {a b : GridLoc} (h : a.z ≠ b.z ∨ a.x ≠ b.x) : a ≠ b := by
  intro hc
  cases h with
  | inl h => exact h (congrArg GridLoc.z hc)
  | inr h => exact h (congrArg GridLoc.x hc)

theorem pushApply_range (g : Grid) (dz dx : Int) (bl : GridLoc)
    (hcol : dz ≠ bl.z ∨ dx ≠ bl.x) (k : Nat) :
    (∀ i, i < k →
      pushApply g ((List.range k).map (stackCell bl)) dz dx ⟨dz, dx, bl.y + (i : Int)⟩ =
        g (stackCell bl i)) ∧
    (∀ i, i < k →
      pushApply g ((List.range k).map (stackCell bl)) dz dx (stackCell bl i) = none) ∧
    (∀ q, (∀ i, i < k → q ≠ stackCell bl i ∧ q ≠ ⟨dz, dx, bl.y + (i : Int)⟩) →
      pushApply g ((List.range k).map (stackCell bl)) dz dx q = g q) := by
  induction k generalizing g bl with
  | zero =>
    exact ⟨fun i hi => absurd hi (by omega), fun i hi => absurd hi (by omega),
      fun q _ => rfl⟩
  | succ k ih =>
    have hfold : ∀ q, pushApply g ((List.range (k + 1)).map (stackCell bl)) dz dx q =
        pushApply (moveObj g bl ⟨dz, dx, bl.y⟩) ((List.range k).map (stackCell (upLoc bl))) dz dx q := by
      intro q
      rw [range_map_stackCell]
      rfl
    have hcol' : dz ≠ (upLoc bl).z ∨ dx ≠ (upLoc bl).x := hcol
    obtain ⟨ih1, ih2, ih3⟩ := ih (moveObj g bl ⟨dz, dx, bl.y⟩) (upLoc bl) hcol'
    refine ⟨?_, ?_, ?_⟩
    · intro i hi
      cases i with
      | zero =>
        have h0 : (⟨dz, dx, bl.y + ((0 : Nat) : Int)⟩ : GridLoc) = ⟨dz, dx, bl.y⟩ := by
          norm_num
        rw [hfold, h0, ih3 ⟨dz, dx, bl.y⟩ ?_]
        · rw [stackCell_zero]
          simp [moveObj]
        · intro j hj
          refine ⟨gridLoc_ne_of_col ?_, gridLoc_ne_of_y ?_⟩
          · exact hcol
          · show bl.y ≠ (upLoc bl).y + (j : Int)
            simp only [upLoc]
            omega
      | succ i' =>
        have harith : (⟨dz, dx, bl.y + ((i' + 1 : Nat) : Int)⟩ : GridLoc) =
            ⟨dz, dx, (upLoc bl).y + (i' : Int)⟩ := by
          have hy : bl.y + ((i' + 1 : Nat) : Int) = (upLoc bl).y + (i' : Int) := by
            simp only [upLoc]
            push_cast
            ring
          rw [hy]
        rw [hfold, harith, ih1 i' (by omega), ← stackCell_succ]
        have hne1 : stackCell bl (i' + 1) ≠ (⟨dz, dx, bl.y⟩ : GridLoc) :=
          gridLoc_ne_of_col (by
            rcases hcol with h | h
            · exact Or.inl (fun hc => h hc.symm)
            · exact Or.inr (fun hc => h hc.symm))
        have hne2 : stackCell bl (i' + 1) ≠ bl :=
          gridLoc_ne_of_y (by show bl.y + ((i' + 1 : Nat) : Int) ≠ bl.y; omega)
        simp [moveObj, hne1, hne2]
    · intro i hi
      cases i with
      | zero =>
        rw [hfold, stackCell_zero, ih3 bl ?_]
        · have hne : bl ≠ (⟨dz, dx, bl.y⟩ : GridLoc) :=
            gridLoc_ne_of_col (by
              rcases hcol with h | h
              · exact Or.inl (fun hc => h hc.symm)
              · exact Or.inr (fun hc => h hc.symm))
          simp [moveObj, hne]
        · intro j hj
          refine ⟨gridLoc_ne_of_y ?_, gridLoc_ne_of_col ?_⟩
          · show bl.y ≠ (upLoc bl).y + (j : Int)
            simp only [upLoc]
            omega
          · rcases hcol with h | h
            · exact Or.inl (fun hc => h hc.symm)
            · exact Or.inr (fun hc => h hc.symm)
      | succ i' =>
        rw [hfold, stackCell_succ]
        exact ih2 i' (by omega)
    · intro q hq
      have h1 : q ≠ bl := by
        have := (hq 0 (by omega)).1
        rwa [stackCell_zero] at this
      have h2 : q ≠ (⟨dz, dx, bl.y⟩ : GridLoc) := by
        have := (hq 0 (by omega)).2
        simpa using this
      rw [hfold, ih3 q ?_]
      · simp [moveObj, h1, h2]
      · intro j hj
        refine ⟨?_, ?_⟩
        · rw [← stackCell_succ]
          exact (hq (j + 1) (by omega)).1
        · have hj2 := (hq (j + 1) (by omega)).2
          have harith : (⟨dz, dx, bl.y + ((j + 1 : Nat) : Int)⟩ : GridLoc) =
              ⟨dz, dx, (upLoc bl).y + (j : Int)⟩ := by
            have hy : bl.y + ((j + 1 : Nat) : Int) = (upLoc bl).y + (j : Int) := by
              simp only [upLoc]
              push_cast
              ring
            rw [hy]
          rwa [harith] at hj2

/-- Claim C2: pushing the pile above `bl` towards the (horizontally
adjacent) destination column moves the longest prefix of the pile whose
destination cells (each at its own floor) are empty, one cell horizontally
each; the first object with an occupied destination (the barrier, when one
exists) and every pushable object above it — whatever their own
destination cells hold — are not moved horizontally and are instead handed
to the deferred fall callbacks (`toFall`, the second component). -/
theorem pushBox_spec (g : Grid) (fuel n : Nat) (bl dest : GridLoc)
    (hcol : dest.z ≠ bl.z ∨ dest.x ≠ bl.x) (hy : dest.y = bl.y)
    (hfuel : n + 1 ≤ fuel)
    (hstack : ∀ i, i < n → pushableOcc g (stackCell bl i) = true)
    (htop : pushableOcc g (stackCell bl n) = false) :
    ∃ k, k ≤ n ∧ ∃ g',
      pushBox g fuel bl dest = some (g', ((List.range n).map (stackCell bl)).drop k) ∧
      (∀ i, i < k → g (stackCell dest i) = none) ∧
      (k < n → g (stackCell dest k) ≠ none) ∧
      (∀ i, i < k → g' (stackCell dest i) = g (stackCell bl i) ∧
        g' (stackCell bl i) = none) ∧
      (∀ i, k ≤ i → i < n → g' (stackCell bl i) = g (stackCell bl i)) := by
  obtain ⟨k, hk1, hk2, hk3, hk4⟩ := pushScan_split g n fuel bl dest hfuel hstack htop
  have htake : ((List.range n).map (stackCell bl)).take k =
      (List.range k).map (stackCell bl) := by
    rw [← List.map_take, List.take_range, Nat.min_eq_left hk1]
  have hcell : ∀ i : Nat, stackCell dest i = (⟨dest.z, dest.x, bl.y + (i : Int)⟩ : GridLoc) := by
    intro i
    rw [stackCell, hy]
  obtain ⟨hp1, hp2, hp3⟩ := pushApply_range g dest.z dest.x bl hcol k
  refine ⟨k, hk1, pushApply g (((List.range n).map (stackCell bl)).take k) dest.z dest.x,
    ?_, hk2, hk3, ?_, ?_⟩
  · unfold pushBox
    rw [hk4]
    rfl
  · intro i hi
    rw [htake, hcell i]
    exact ⟨hp1 i hi, hp2 i hi⟩
  · intro i hik hin
    rw [htake]
    refine hp3 (stackCell bl i) ?_
    intro j hj
    refine ⟨gridLoc_ne_of_y ?_, gridLoc_ne_of_col ?_⟩
    · show bl.y + (i : Int) ≠ bl.y + (j : Int)
      omega
    · rcases hcol with h | h
      · exact Or.inl (fun hc => h hc.symm)
      · exact Or.inr (fun hc => h hc.symm)

/-- Concrete grid for the C2 witness: a pile of three boxes at column
(0,0) on floors 1..3, and a block at floor 2 of the destination column
(0,1), so only the bottom box can move and the two above it fall. -/
def pushDemoGrid : Grid := fun q =>
  if q = ⟨0, 0, 1⟩ then some .box
  else if q = ⟨0, 0, 2⟩ then some .box
  else if q = ⟨0, 0, 3⟩ then some .box
  else if q = ⟨0, 1, 2⟩ then some .block
  else none

/-- Witness for C2 on `pushDemoGrid`: pushing the pile of three boxes at
(0,0,1..3) towards column (0,1) with a barrier at (0,1,2). -/
theorem pushBox_spec_witness :
    ∃ k, k ≤ 3 ∧ ∃ g',
      pushBox pushDemoGrid 4 ⟨0, 0, 1⟩ ⟨0, 1, 1⟩ =
        some (g', ((List.range 3).map (stackCell ⟨0, 0, 1⟩)).drop k) ∧
      (∀ i, i < k → pushDemoGrid (stackCell ⟨0, 1, 1⟩ i) = none) ∧
      (k < 3 → pushDemoGrid (stackCell ⟨0, 1, 1⟩ k) ≠ none) ∧
      (∀ i, i < k → g' (stackCell ⟨0, 1, 1⟩ i) = pushDemoGrid (stackCell ⟨0, 0, 1⟩ i) ∧
        g' (stackCell ⟨0, 0, 1⟩ i) = none) ∧
      (∀ i, k ≤ i → i < 3 → g' (stackCell ⟨0, 0, 1⟩ i) = pushDemoGrid (stackCell ⟨0, 0, 1⟩ i)) :=
  pushBox_spec pushDemoGrid 4 3 ⟨0, 0, 1⟩ ⟨0, 1, 1⟩ (Or.inr (by decide)) rfl (by decide)
    (by decide) (by decide)

/-- The cargo scan of `(l *Level) getCargo(elev)`: collect the locations
of the contiguous run of pushable occupants in the column starting at
floor `y`; stop at the first empty or non-pushable cell.  Fuel stands for
the array height; `none` models the Go loop running off the grid. -/
def getCargoAux (g : Grid) (z x : Int) : Nat → Int → Option (List GridLoc)
  | 0, _ => none
  | f + 1, y =>
    match g ⟨z, x, y⟩ with
    | none => some []
    | some o =>
      if o.isPushable then (getCargoAux g z x f (y + 1)).map (fun l => ⟨z, x, y⟩ :: l)
      else some []

/-- `getCargo(elev)`: the list of objects stacked directly above the
elevator, scanning from one floor above it. -/
def getCargo (g : Grid) (eloc : GridLoc) (fuel : Nat) : Option (List GridLoc) :=
  getCargoAux g eloc.z eloc.x fuel (eloc.y + 1)

/-- The headroom scan of `elevate`:
`for y := 1; spaces_above_cargo < max_elevation; y++ { ... }` — count
consecutive empty cells starting at floor `y`, capped at the remaining
range (the first argument). -/
def spacesAbove (g : Grid) (z x : Int) : Nat → Int → Nat
  | 0, _ => 0
  | m + 1, y =>
    if g ⟨z, x, y⟩ = none then spacesAbove g z x m (y + 1) + 1
    else 0

/-- Move a list of cargo objects up by `s` floors (the
`for i := len(cargo)-1; i >= 0; i--` loop of `elevate`: callers pass the
cargo list already reversed so the topmost object moves first). -/
def elevApply (g : Grid) (locs : List GridLoc) (s : Nat) : Grid :=
  locs.foldl (fun g c => moveObj g c ⟨c.z, c.x, c.y + (s : Int)⟩) g

/-- `(l *Level) elevate(elev)`: if the elevator (at `eloc`, range
`[low, high]`) is strictly below `high`, read the cargo, take its last
element (this indexing panics in Go when the cargo is empty — modelled by
`none`), count the empty cells above it capped by the remaining range,
and move every cargo object (topmost first) and then the elevator itself
up by that amount.  Returns the new grid and the ascent amount. -/
def elevate (g : Grid) (eloc : GridLoc) (low high : Int) (fuel : Nat) :
    Option (Grid × Nat) :=
  let max_elevation := high - eloc.y
  if 0 < max_elevation then
    match getCargo g eloc fuel with
    | none => none
    | some cargo =>
      match cargo.getLast? with
      | none => none
      | some last =>
        let spaces := spacesAbove g last.z last.x max_elevation.toNat (last.y + 1)
        let g1 := elevApply g cargo.reverse spaces
        let g2 := moveObj g1 eloc ⟨eloc.z, eloc.x, eloc.y + (spaces : Int)⟩
        some (g2, spaces)
  else some (g, 0)

/-- The descent scan of `(l *Level) lowerElev(elev)`:
`for newloc.y = elev.loc.y - 1; newloc.y >= elev.low && Get(newloc) == nil; newloc.y--`.
Fuel stands for the (finite) number of floors down to `low`. -/
def lowerScan (g : Grid) (z x low : Int) : Nat → Int → Int
  | 0, y => y
  | f + 1, y => if low ≤ y ∧ g ⟨z, x, y⟩ = none then lowerScan g z x low f (y - 1) else y

/-- `(l *Level) lowerElev(elev)`: scan down from one floor below the
elevator while cells are empty and the floor stays at least `low`, then
step back up one; if the resulting floor differs, move the elevator
there.  Returns the new grid and the elevator's new location. -/
def lowerElev (g : Grid) (eloc : GridLoc) (low : Int) : Grid × GridLoc :=
  let newY := lowerScan g eloc.z eloc.x low (eloc.y - low).toNat (eloc.y - 1) + 1
  if newY ≠ eloc.y then
    (moveObj g eloc ⟨eloc.z, eloc.x, newY⟩, ⟨eloc.z, eloc.x, newY⟩)
  else (g, eloc)

theorem getCargoAux_spec (g : Grid) (z x : Int) :
    ∀ (n fuel : Nat) (y : Int), n + 1 ≤ fuel →
      (∀ i, i < n → pushableOcc g (stackCell ⟨z, x, y⟩ i) = true) →
      pushableOcc g (stackCell ⟨z, x, y⟩ n) = false →
      getCargoAux g z x fuel y = some ((List.range n).map (stackCell ⟨z, x, y⟩)) := by
  intro n
  induction n with
  | zero =>
    intro fuel y hfu hstack htop
    obtain ⟨f, rfl⟩ : ∃ f, fuel = f + 1 := ⟨fuel - 1, by omega⟩
    rw [stackCell_zero] at htop
    rw [getCargoAux]
    cases hgb : g ⟨z, x, y⟩ with
    | none => rfl
    | some o =>
      have ho : o.isPushable = false := by
        unfold pushableOcc at htop
        rw [hgb] at htop
        exact htop
      simp [ho]
  | succ m ih =>
    intro fuel y hfu hstack htop
    obtain ⟨f, rfl⟩ : ∃ f, fuel = f + 1 := ⟨fuel - 1, by omega⟩
    have h0 : pushableOcc g ⟨z, x, y⟩ = true := by
      have := hstack 0 (by omega)
      rwa [stackCell_zero] at this
    obtain ⟨o, hgb, hop⟩ := (pushableOcc_true_iff g _).mp h0
    rw [getCargoAux, hgb]
    simp only [hop, if_true]
    rw [ih f (y + 1) (by omega)
      (fun i hi => by
        have := hstack (i + 1) (by omega)
        rw [stackCell_succ] at this
        exact this)
      (by
        have := htop
        rw [stackCell_succ] at this
        exact this)]
    rw [show ((List.range (m + 1)).map (stackCell ⟨z, x, y⟩)) =
      (⟨z, x, y⟩ : GridLoc) :: (List.range m).map (stackCell (upLoc ⟨z, x, y⟩)) from
      range_map_stackCell ⟨z, x, y⟩ m]
    rfl

theorem spacesAbove_le (g : Grid) (z x : Int) :
    ∀ (m : Nat) (y : Int), spacesAbove g z x m y ≤ m := by
  intro m
  induction m with
  | zero => intro y; exact le_rfl
  | succ m ih =>
    intro y
    rw [spacesAbove]
    split_ifs with h
    · have := ih (y + 1)
      omega
    · omega

theorem spacesAbove_spec (g : Grid) (z x : Int) :
    ∀ (m r : Nat) (y : Int),
      (∀ i : Nat, i < r → g ⟨z, x, y + (i : Int)⟩ = none) →
      (r < m → g ⟨z, x, y + (r : Int)⟩ ≠ none) →
      spacesAbove g z x m y = min m r := by
  intro m
  induction m with
  | zero =>
    intro r y _ _
    simp [spacesAbove]
  | succ m ih =>
    intro r y hemp hocc
    cases r with
    | zero =>
      have h := hocc (by omega)
      rw [spacesAbove, if_neg (by simpa using h)]
      simp
    | succ r' =>
      have h0 : g ⟨z, x, y⟩ = none := by
        have := hemp 0 (by omega)
        simpa using this
      rw [spacesAbove, if_pos h0]
      rw [ih r' (y + 1)
        (fun i hi => by
          have := hemp (i + 1) (by omega)
          have hy : y + ((i + 1 : Nat) : Int) = (y + 1) + (i : Int) := by
            push_cast
            ring
          rwa [hy] at this)
        (fun hlt => by
          have := hocc (by omega)
          have hy : y + ((r' + 1 : Nat) : Int) = (y + 1) + (r' : Int) := by
            push_cast
            ring
          rwa [hy] at this)]
      omega

theorem moveObj_self (g : Grid) (c : GridLoc) : moveObj g c c = g := by
  funext q
  by_cases h : q = c <;> simp [moveObj, h]

theorem stackCell_target (base : GridLoc) (i s : Nat) :
    (⟨(stackCell base i).z, (stackCell base i).x,
      (stackCell base i).y + (s : Int)⟩ : GridLoc) = stackCell base (i + s) := by
  show (⟨base.z, base.x, (base.y + (i : Int)) + (s : Int)⟩ : GridLoc) =
    ⟨base.z, base.x, base.y + ((i + s : Nat) : Int)⟩
  have hy : (base.y + (i : Int)) + (s : Int) = base.y + ((i + s : Nat) : Int) := by
    push_cast
    ring
  rw [hy]

theorem range_map_reverse_succ (base : GridLoc) (n : Nat) :
    (((List.range (n + 1)).map (stackCell base)).reverse) =
      stackCell base n :: ((List.range n).map (stackCell base)).reverse := by
  rw [List.range_succ, List.map_append, List.reverse_append]
  rfl

theorem elevApply_range (base : GridLoc) (s : Nat) :
    ∀ n : Nat, ∀ g : Grid,
      (∀ i, i < n →
        elevApply g (((List.range n).map (stackCell base)).reverse) s (stackCell base (i + s)) =
          g (stackCell base i)) ∧
      (∀ q, (∀ i, i < n → q ≠ stackCell base i ∧ q ≠ stackCell base (i + s)) →
        elevApply g (((List.range n).map (stackCell base)).reverse) s q = g q) := by
  intro n
  induction n with
  | zero =>
    intro g
    exact ⟨fun i hi => absurd hi (by omega), fun q _ => rfl⟩
  | succ n ih =>
    intro g
    have hfold : ∀ q, elevApply g (((List.range (n + 1)).map (stackCell base)).reverse) s q =
        elevApply (moveObj g (stackCell base n) (stackCell base (n + s)))
          (((List.range n).map (stackCell base)).reverse) s q := by
      intro q
      rw [range_map_reverse_succ]
      show elevApply (moveObj g (stackCell base n)
        ⟨(stackCell base n).z, (stackCell base n).x, (stackCell base n).y + (s : Int)⟩) _ s q = _
      rw [stackCell_target]
    obtain ⟨ih1, ih2⟩ := ih (moveObj g (stackCell base n) (stackCell base (n + s)))
    constructor
    · intro i hi
      by_cases hin : i = n
      · subst hin
        rw [hfold, ih2 (stackCell base (i + s)) ?_]
        · simp [moveObj]
        · intro j hj
          refine ⟨gridLoc_ne_of_y ?_, gridLoc_ne_of_y ?_⟩
          · show base.y + ((i + s : Nat) : Int) ≠ base.y + (j : Int)
            have : j < i := hj
            omega
          · show base.y + ((i + s : Nat) : Int) ≠ base.y + ((j + s : Nat) : Int)
            have : j < i := hj
            omega
      · have hilt : i < n := by omega
        rw [hfold, ih1 i hilt]
        have hne1 : stackCell base i ≠ stackCell base (n + s) :=
          gridLoc_ne_of_y (by
            show base.y + (i : Int) ≠ base.y + ((n + s : Nat) : Int)
            omega)
        have hne2 : stackCell base i ≠ stackCell base n :=
          gridLoc_ne_of_y (by
            show base.y + (i : Int) ≠ base.y + (n : Int)
            omega)
        simp [moveObj, hne1, hne2]
    · intro q hq
      rw [hfold, ih2 q (fun j hj => hq j (by omega))]
      have hne1 : q ≠ stackCell base (n + s) := (hq n (by omega)).2
      have hne2 : q ≠ stackCell base n := (hq n (by omega)).1
      simp [moveObj, hne1, hne2]

theorem elevApply_zero : ∀ (locs : List GridLoc) (g : Grid), elevApply g locs 0 = g := by
  intro locs
  induction locs with
  | nil => intro g; rfl
  | cons c tl ih =>
    intro g
    show elevApply (moveObj g c ⟨c.z, c.x, c.y + ((0 : Nat) : Int)⟩) tl 0 = g
    have hc : (⟨c.z, c.x, c.y + ((0 : Nat) : Int)⟩ : GridLoc) = c := by
      have h1 : c.y + ((0 : Nat) : Int) = c.y := by norm_num
      rw [h1]
    rw [hc, moveObj_self]
    exact ih g

/-- Claim C4: for an `elevate` call on an elevator (at `eloc`, range
`[low, high]`, floor within range) whose cargo is the non-empty pile of
`n` pushable objects directly above it, the ascent amount is the minimum
of the remaining range `high - eloc.y` and the number `r` of consecutive
empty cells directly above the topmost cargo object; the elevator and
every cargo object move up by exactly that amount, and when the amount is
zero no grid location changes. -/
theorem elevate_spec (g : Grid) (eloc : GridLoc) (low high : Int) (fuel n r : Nat)
    (helev : g eloc = some (.elevator low high))
    (hyh : eloc.y ≤ high)
    (hn : 1 ≤ n)
    (hfuel : n + 1 ≤ fuel)
    (hstack : ∀ i, i < n → pushableOcc g (stackCell (upLoc eloc) i) = true)
    (htop : pushableOcc g (stackCell (upLoc eloc) n) = false)
    (hrun : ∀ i : Nat, i < r → g (stackCell (upLoc eloc) (n + i)) = none)
    (hrocc : r < (high - eloc.y).toNat → g (stackCell (upLoc eloc) (n + r)) ≠ none) :
    ∃ g', elevate g eloc low high fuel = some (g', min (high - eloc.y).toNat r) ∧
      g' (stackCell eloc (min (high - eloc.y).toNat r)) = some (.elevator low high) ∧
      (∀ i, i < n → g' (stackCell (upLoc eloc) (i + min (high - eloc.y).toNat r)) =
        g (stackCell (upLoc eloc) i)) ∧
      (min (high - eloc.y).toNat r = 0 → g' = g) := by
  by_cases hmax : 0 < high - eloc.y
  · obtain ⟨m, rfl⟩ : ∃ m, n = m + 1 := ⟨n - 1, by omega⟩
    have hcargo : getCargo g eloc fuel =
        some ((List.range (m + 1)).map (stackCell (upLoc eloc))) := by
      unfold getCargo
      exact getCargoAux_spec g eloc.z eloc.x (m + 1) fuel (eloc.y + 1) hfuel
        (fun i hi => hstack i hi) htop
    have hlast : ((List.range (m + 1)).map (stackCell (upLoc eloc))).getLast? =
        some (stackCell (upLoc eloc) m) := by
      rw [List.range_succ, List.map_append]
      simp
    have hspaces : spacesAbove g (stackCell (upLoc eloc) m).z (stackCell (upLoc eloc) m).x
        (high - eloc.y).toNat ((stackCell (upLoc eloc) m).y + 1) =
        min (high - eloc.y).toNat r := by
      apply spacesAbove_spec
      · intro i hi
        have hr := hrun i hi
        have hcell : (⟨(stackCell (upLoc eloc) m).z, (stackCell (upLoc eloc) m).x,
            ((stackCell (upLoc eloc) m).y + 1) + (i : Int)⟩ : GridLoc) =
            stackCell (upLoc eloc) ((m + 1) + i) := by
          show (⟨(upLoc eloc).z, (upLoc eloc).x,
            ((upLoc eloc).y + (m : Int) + 1) + (i : Int)⟩ : GridLoc) =
            ⟨(upLoc eloc).z, (upLoc eloc).x, (upLoc eloc).y + ((m + 1 + i : Nat) : Int)⟩
          have hy : (upLoc eloc).y + (m : Int) + 1 + (i : Int) =
              (upLoc eloc).y + ((m + 1 + i : Nat) : Int) := by
            push_cast
            ring
          rw [hy]
        rw [hcell]
        exact hr
      · intro hlt
        have hr := hrocc hlt
        have hcell : (⟨(stackCell (upLoc eloc) m).z, (stackCell (upLoc eloc) m).x,
            ((stackCell (upLoc eloc) m).y + 1) + (r : Int)⟩ : GridLoc) =
            stackCell (upLoc eloc) ((m + 1) + r) := by
          show (⟨(upLoc eloc).z, (upLoc eloc).x,
            ((upLoc eloc).y + (m : Int) + 1) + (r : Int)⟩ : GridLoc) =
            ⟨(upLoc eloc).z, (upLoc eloc).x, (upLoc eloc).y + ((m + 1 + r : Nat) : Int)⟩
          have hy : (upLoc eloc).y + (m : Int) + 1 + (r : Int) =
              (upLoc eloc).y + ((m + 1 + r : Nat) : Int) := by
            push_cast
            ring
          rw [hy]
        rw [hcell]
        exact hr
    have helevate : elevate g eloc low high fuel =
        some (moveObj (elevApply g ((List.range (m + 1)).map (stackCell (upLoc eloc))).reverse
            (min (high - eloc.y).toNat r)) eloc
            ⟨eloc.z, eloc.x, eloc.y + ((min (high - eloc.y).toNat r : Nat) : Int)⟩,
          min (high - eloc.y).toNat r) := by
      unfold elevate
      rw [if_pos hmax, hcargo]
      dsimp only
      rw [hlast]
      dsimp only
      rw [hspaces]
    obtain ⟨ap1, ap2⟩ := elevApply_range (upLoc eloc) (min (high - eloc.y).toNat r) (m + 1) g
    refine ⟨_, helevate, ?_, ?_, ?_⟩
    · have htgt : stackCell eloc (min (high - eloc.y).toNat r) =
          (⟨eloc.z, eloc.x, eloc.y + ((min (high - eloc.y).toNat r : Nat) : Int)⟩ : GridLoc) := rfl
      rw [htgt]
      have hg1 : elevApply g ((List.range (m + 1)).map (stackCell (upLoc eloc))).reverse
          (min (high - eloc.y).toNat r) eloc = g eloc := by
        apply ap2
        intro i hi
        refine ⟨gridLoc_ne_of_y ?_, gridLoc_ne_of_y ?_⟩
        · show eloc.y ≠ eloc.y + 1 + (i : Int)
          omega
        · show eloc.y ≠ eloc.y + 1 + ((i + min (high - eloc.y).toNat r : Nat) : Int)
          omega
      simp only [moveObj, if_pos rfl]
      rw [hg1, helev]
      simp
    · intro i hi
      have hne1 : stackCell (upLoc eloc) (i + min (high - eloc.y).toNat r) ≠
          (⟨eloc.z, eloc.x, eloc.y + ((min (high - eloc.y).toNat r : Nat) : Int)⟩ : GridLoc) :=
        gridLoc_ne_of_y (by
          show eloc.y + 1 + ((i + min (high - eloc.y).toNat r : Nat) : Int) ≠
            eloc.y + ((min (high - eloc.y).toNat r : Nat) : Int)
          omega)
      have hne2 : stackCell (upLoc eloc) (i + min (high - eloc.y).toNat r) ≠ eloc :=
        gridLoc_ne_of_y (by
          show eloc.y + 1 + ((i + min (high - eloc.y).toNat r : Nat) : Int) ≠ eloc.y
          omega)
      simp only [moveObj, if_neg hne1, if_neg hne2]
      exact ap1 i hi
    · intro hzero
      rw [hzero, elevApply_zero]
      have hc : (⟨eloc.z, eloc.x, eloc.y + ((0 : Nat) : Int)⟩ : GridLoc) = eloc := by
        have h1 : eloc.y + ((0 : Nat) : Int) = eloc.y := by norm_num
        rw [h1]
      rw [hc, moveObj_self]
  · have h0 : (high - eloc.y).toNat = 0 := by omega
    refine ⟨g, ?_, ?_, ?_, fun _ => rfl⟩
    · unfold elevate
      rw [if_neg hmax, h0, Nat.zero_min]
    · rw [h0, Nat.zero_min, stackCell_zero]
      exact helev
    · intro i hi
      rw [h0, Nat.zero_min, Nat.add_zero]

/-- Concrete grid for the C4/C5 witnesses: an elevator at the column
bottom with range `[0, 2]` and a single box as cargo directly above. -/
def elevDemoGrid : Grid := fun q =>
  if q = ⟨0, 0, 0⟩ then some (.elevator 0 2)
  else if q = ⟨0, 0, 1⟩ then some .box
  else none

/-- Witness for C4: the demo elevator carries its one-box cargo up by
`min(high - floor, headroom) = min(2, 2) = 2` floors. -/
theorem elevate_spec_witness :
    ∃ g', elevate elevDemoGrid ⟨0, 0, 0⟩ 0 2 2 = some (g', 2) ∧
      g' (⟨0, 0, 2⟩ : GridLoc) = some (.elevator 0 2) ∧
      g' (⟨0, 0, 3⟩ : GridLoc) = some .box := by
  obtain ⟨g', h1, h2, h3, _⟩ := elevate_spec elevDemoGrid ⟨0, 0, 0⟩ 0 2 2 1 2
    (by decide) (by decide) (by decide) (by decide) (by decide) (by decide)
    (by decide) (by decide)
  have hmin : min ((2 : Int) - (GridLoc.mk 0 0 0).y).toNat 2 = 2 := by decide
  rw [hmin] at h1 h2
  have hcell : stackCell ⟨0, 0, 0⟩ 2 = (⟨0, 0, 2⟩ : GridLoc) := by decide
  rw [hcell] at h2
  have hbox := h3 0 (by decide)
  rw [hmin] at hbox
  have hcell2 : stackCell (upLoc ⟨0, 0, 0⟩) (0 + 2) = (⟨0, 0, 3⟩ : GridLoc) := by decide
  rw [hcell2] at hbox
  have hval : elevDemoGrid (stackCell (upLoc ⟨0, 0, 0⟩) 0) = some .box := by decide
  exact ⟨g', h1, h2, hbox.trans hval⟩

/-- The elevator branch of `(l *Level) afterNewFloor(obj)`: once an object
settles at `oloc`, if the cell directly beneath it holds an elevator,
`elevate` is invoked on that elevator.  The pad branch only changes
presentation state, leaving the grid unchanged. -/
def afterNewFloorElev (g : Grid) (oloc : GridLoc) (fuel : Nat) : Option Grid :=
  match g ⟨oloc.z, oloc.x, oloc.y - 1⟩ with
  | some (.elevator low high) =>
    (elevate g ⟨oloc.z, oloc.x, oloc.y - 1⟩ low high fuel).map Prod.fst
  | _ => some g

theorem getCargoAux_mem (g : Grid) (z x : Int) :
    ∀ (fuel : Nat) (y : Int) (L : List GridLoc) (c : GridLoc),
      getCargoAux g z x fuel y = some L → c ∈ L → c.z = z ∧ c.x = x ∧ y ≤ c.y := by
  intro fuel
  induction fuel with
  | zero =>
    intro y L c h
    rw [getCargoAux] at h
    exact absurd h (by simp)
  | succ f ih =>
    intro y L c h hc
    rw [getCargoAux] at h
    cases hgb : g ⟨z, x, y⟩ with
    | none =>
      rw [hgb] at h
      dsimp only at h
      rw [Option.some.injEq] at h
      subst h
      cases hc
    | some o =>
      rw [hgb] at h
      dsimp only at h
      by_cases ho : o.isPushable
      · rw [if_pos ho] at h
        rcases Option.map_eq_some'.mp h with ⟨L', hL', rfl⟩
        rcases List.mem_cons.mp hc with rfl | hmem
        · exact ⟨rfl, rfl, le_rfl⟩
        · obtain ⟨h1, h2, h3⟩ := ih (y + 1) L' c hL' hmem
          exact ⟨h1, h2, by omega⟩
      · rw [if_neg ho] at h
        rw [Option.some.injEq] at h
        subst h
        cases hc

theorem elevApply_untouched (s : Nat) :
    ∀ (locs : List GridLoc) (g : Grid) (q : GridLoc),
      (∀ c ∈ locs, c ≠ q ∧ (⟨c.z, c.x, c.y + (s : Int)⟩ : GridLoc) ≠ q) →
      elevApply g locs s q = g q := by
  intro locs
  induction locs with
  | nil => intro g q _; rfl
  | cons c tl ih =>
    intro g q hcond
    show elevApply (moveObj g c ⟨c.z, c.x, c.y + (s : Int)⟩) tl s q = g q
    rw [ih _ q (fun d hd => hcond d (List.mem_cons_of_mem c hd))]
    obtain ⟨h1, h2⟩ := hcond c (List.mem_cons_self c tl)
    show (if q = (⟨c.z, c.x, c.y + (s : Int)⟩ : GridLoc) then g c
      else if q = c then none else g q) = g q
    rw [if_neg (Ne.symm h2), if_neg (Ne.symm h1)]

theorem elevate_some_inv (g : Grid) (eloc : GridLoc) (low high : Int) (fuel : Nat)
    (helev : g eloc = some (.elevator low high))
    (hlo : low ≤ eloc.y) (hhi : eloc.y ≤ high) :
    ∀ g' sp, elevate g eloc low high fuel = some (g', sp) →
      g' ⟨eloc.z, eloc.x, eloc.y + (sp : Int)⟩ = some (.elevator low high) ∧
      low ≤ eloc.y + (sp : Int) ∧ eloc.y + (sp : Int) ≤ high := by
  intro g' sp h
  unfold elevate at h
  by_cases hmax : 0 < high - eloc.y
  · rw [if_pos hmax] at h
    cases hcargo : getCargo g eloc fuel with
    | none =>
      rw [hcargo] at h
      exact absurd h (by simp)
    | some cargo =>
      rw [hcargo] at h
      dsimp only at h
      cases hlast : cargo.getLast? with
      | none =>
        rw [hlast] at h
        exact absurd h (by simp)
      | some last =>
        rw [hlast] at h
        dsimp only at h
        rw [Option.some.injEq, Prod.mk.injEq] at h
        obtain ⟨hg, hsp⟩ := h
        have hsp_le : sp ≤ (high - eloc.y).toNat := by
          rw [← hsp]
          exact spacesAbove_le g last.z last.x (high - eloc.y).toNat (last.y + 1)
        subst hg
        refine ⟨?_, by omega, by omega⟩
        have huntouched : elevApply g cargo.reverse
            (spacesAbove g last.z last.x (high - eloc.y).toNat (last.y + 1)) eloc = g eloc := by
          apply elevApply_untouched
          intro c hc
          obtain ⟨hz, hx, hy⟩ := getCargoAux_mem g eloc.z eloc.x fuel (eloc.y + 1) cargo c
            hcargo (List.mem_reverse.mp hc)
          refine ⟨gridLoc_ne_of_y ?_, gridLoc_ne_of_y ?_⟩
          · show c.y ≠ eloc.y
            omega
          · show c.y + ((spacesAbove g last.z last.x (high - eloc.y).toNat (last.y + 1) : Nat) : Int) ≠ eloc.y
            omega
        rw [← hsp]
        show (if (⟨eloc.z, eloc.x,
            eloc.y + ((spacesAbove g last.z last.x (high - eloc.y).toNat (last.y + 1) : Nat) : Int)⟩ : GridLoc) =
            ⟨eloc.z, eloc.x,
              eloc.y + ((spacesAbove g last.z last.x (high - eloc.y).toNat (last.y + 1) : Nat) : Int)⟩ then
          elevApply g cargo.reverse (spacesAbove g last.z last.x (high - eloc.y).toNat (last.y + 1)) eloc
          else _) = some (MapObj.elevator low high)
        rw [if_pos rfl, huntouched, helev]
  · rw [if_neg hmax] at h
    rw [Option.some.injEq, Prod.mk.injEq] at h
    obtain ⟨hg, hsp⟩ := h
    subst hg
    have hsp0 : sp = 0 := hsp.symm
    subst hsp0
    have hc : (⟨eloc.z, eloc.x, eloc.y + ((0 : Nat) : Int)⟩ : GridLoc) = eloc := by
      have h1 : eloc.y + ((0 : Nat) : Int) = eloc.y := by norm_num
      rw [h1]
    rw [hc]
    exact ⟨helev, by omega, by omega⟩

theorem lowerScan_bounds (g : Grid) (z x low : Int) :
    ∀ (f : Nat) (y0 : Int), low - 1 ≤ y0 →
      low - 1 ≤ lowerScan g z x low f y0 ∧ lowerScan g z x low f y0 ≤ y0 := by
  intro f
  induction f with
  | zero => intro y0 h; exact ⟨h, le_rfl⟩
  | succ f ih =>
    intro y0 h
    rw [lowerScan]
    split_ifs with hc
    · obtain ⟨ha, hb⟩ := ih (y0 - 1) (by omega)
      exact ⟨ha, by omega⟩
    · exact ⟨h, le_rfl⟩

theorem lowerElev_inv (g : Grid) (eloc : GridLoc) (low high : Int)
    (helev : g eloc = some (.elevator low high))
    (hlo : low ≤ eloc.y) (hhi : eloc.y ≤ high) :
    (lowerElev g eloc low).1 (lowerElev g eloc low).2 = some (.elevator low high) ∧
    low ≤ (lowerElev g eloc low).2.y ∧ (lowerElev g eloc low).2.y ≤ high := by
  obtain ⟨ha, hb⟩ := lowerScan_bounds g eloc.z eloc.x low (eloc.y - low).toNat
    (eloc.y - 1) (by omega)
  unfold lowerElev
  dsimp only
  split_ifs with hne
  · dsimp only
    refine ⟨?_, by omega, by omega⟩
    show (if (⟨eloc.z, eloc.x,
        lowerScan g eloc.z eloc.x low (eloc.y - low).toNat (eloc.y - 1) + 1⟩ : GridLoc) =
        ⟨eloc.z, eloc.x,
          lowerScan g eloc.z eloc.x low (eloc.y - low).toNat (eloc.y - 1) + 1⟩ then g eloc
      else _) = some (MapObj.elevator low high)
    rw [if_pos rfl, helev]
  · dsimp only
    exact ⟨helev, hlo, hhi⟩

/-- Claim C10: `elevate` reads `cargo[len(cargo)-1]` without an emptiness
check whenever the elevator is below `high`; with a pushable object
directly above the elevator (`hstack 0`, as at the `afterNewFloor` call
site where an object has just settled on the elevator) the access is in
bounds and `elevate` cannot hit the panic branch, for any range; and
conversely, when the elevator is strictly below `high` and the cell
directly above it holds no pushable occupant, the panic branch (modelled
by `none`) is reached. -/
theorem elevate_cargo_precondition (g : Grid) (oloc : GridLoc)
    (fuel n : Nat) (hn : 1 ≤ n) (hfuel : n + 1 ≤ fuel)
    (hstack : ∀ i, i < n → pushableOcc g (stackCell oloc i) = true)
    (htop : pushableOcc g (stackCell oloc n) = false) :
    (∀ low2 high2 : Int,
      (elevate g ⟨oloc.z, oloc.x, oloc.y - 1⟩ low2 high2 fuel).isSome = true) ∧
    (afterNewFloorElev g oloc fuel).isSome = true ∧
    (∀ (g2 : Grid) (e2 : GridLoc) (low2 high2 : Int) (f2 : Nat),
      e2.y < high2 → pushableOcc g2 (upLoc e2) = false → 1 ≤ f2 →
      elevate g2 e2 low2 high2 f2 = none) := by
  obtain ⟨m, rfl⟩ : ∃ m, n = m + 1 := ⟨n - 1, by omega⟩
  have hcell : (⟨oloc.z, oloc.x, (oloc.y - 1) + 1⟩ : GridLoc) = oloc := by
    have h1 : oloc.y - 1 + 1 = oloc.y := by ring
    rw [h1]
  have hcargo : getCargo g ⟨oloc.z, oloc.x, oloc.y - 1⟩ fuel =
      some ((List.range (m + 1)).map (stackCell oloc)) := by
    unfold getCargo
    have hspec := getCargoAux_spec g oloc.z oloc.x (m + 1) fuel ((oloc.y - 1) + 1) hfuel
      (fun i hi => by rw [hcell]; exact hstack i hi)
      (by rw [hcell]; exact htop)
    rw [hcell] at hspec
    exact hspec
  have hlast : ((List.range (m + 1)).map (stackCell oloc)).getLast? =
      some (stackCell oloc m) := by
    rw [List.range_succ, List.map_append]
    simp
  have helper : ∀ low2 high2 : Int,
      (elevate g ⟨oloc.z, oloc.x, oloc.y - 1⟩ low2 high2 fuel).isSome = true := by
    intro low2 high2
    unfold elevate
    dsimp only
    split_ifs with hmax
    · rw [hcargo]
      dsimp only
      rw [hlast]
      rfl
    · rfl
  refine ⟨helper, ?_, ?_⟩
  · unfold afterNewFloorElev
    cases hfloor : g ⟨oloc.z, oloc.x, oloc.y - 1⟩ with
    | none => rfl
    | some o =>
      cases o with
      | gopher => rfl
      | box => rfl
      | block => rfl
      | pad => rfl
      | elevator low2 high2 =>
        dsimp only
        cases helv : elevate g ⟨oloc.z, oloc.x, oloc.y - 1⟩ low2 high2 fuel with
        | none =>
          have := helper low2 high2
          rw [helv] at this
          exact absurd this (by simp)
        | some p => rfl
  · intro g2 e2 low2 high2 f2 hy2 hpush hf2
    unfold elevate
    rw [if_pos (by omega)]
    have hcargo2 : getCargo g2 e2 f2 = some [] := by
      unfold getCargo
      obtain ⟨f', rfl⟩ : ∃ f', f2 = f' + 1 := ⟨f2 - 1, by omega⟩
      rw [getCargoAux]
      cases hgb : g2 ⟨e2.z, e2.x, e2.y + 1⟩ with
      | none => rfl
      | some o =>
        have ho : o.isPushable = false := by
          unfold pushableOcc at hpush
          rw [show upLoc e2 = (⟨e2.z, e2.x, e2.y + 1⟩ : GridLoc) from rfl] at hpush
          rw [hgb] at hpush
          exact hpush
        simp [ho]
    rw [hcargo2]
    rfl

/-- Witness for C10: in the demo level the box at floor 1 has just
settled on the elevator at floor 0 and `elevate` succeeds. -/
theorem elevate_cargo_precondition_witness :
    (∀ low2 high2 : Int,
      (elevate elevDemoGrid ⟨(GridLoc.mk 0 0 1).z, (GridLoc.mk 0 0 1).x,
        (GridLoc.mk 0 0 1).y - 1⟩ low2 high2 3).isSome = true) ∧
    (afterNewFloorElev elevDemoGrid ⟨0, 0, 1⟩ 3).isSome = true ∧
    (∀ (g2 : Grid) (e2 : GridLoc) (low2 high2 : Int) (f2 : Nat),
      e2.y < high2 → pushableOcc g2 (upLoc e2) = false → 1 ≤ f2 →
      elevate g2 e2 low2 high2 f2 = none) :=
  elevate_cargo_precondition elevDemoGrid ⟨0, 0, 1⟩ 3 1 (by decide) (by decide)
    (by decide) (by decide)

/-- A single elevator transition: either an `elevate` call that returns
(with the elevator's location advanced by the ascent amount) or a
`lowerElev` call. -/
def ElevStep (s t : Grid × GridLoc) : Prop :=
  ∃ low high, s.1 s.2 = some (MapObj.elevator low high) ∧
    ((∃ (fuel : Nat) (g' : Grid) (sp : Nat),
        elevate s.1 s.2 low high fuel = some (g', sp) ∧
        t = (g', ⟨s.2.z, s.2.x, s.2.y + (sp : Int)⟩)) ∨
      t = lowerElev s.1 s.2 low)

/-- The elevator-range invariant: the tracked location holds an elevator
whose current floor lies within its `[low, high]` range. -/
def ElevInv (s : Grid × GridLoc) : Prop :=
  ∃ low high, s.1 s.2 = some (MapObj.elevator low high) ∧
    low ≤ s.2.y ∧ s.2.y ≤ high

theorem elevStep_preserve (s t : Grid × GridLoc) (hs : ElevInv s) (hst : ElevStep s t) :
    ElevInv t := by
  obtain ⟨low, high, helev, hlo, hhi⟩ := hs
  obtain ⟨low2, high2, helev2, hcase⟩ := hst
  rw [helev, Option.some.injEq, MapObj.elevator.injEq] at helev2
  obtain ⟨h1, h2⟩ := helev2
  subst h1
  subst h2
  cases hcase with
  | inl h =>
    obtain ⟨fuel, g', sp, helv, rfl⟩ := h
    obtain ⟨ha, hb, hc⟩ := elevate_some_inv s.1 s.2 low high fuel helev hlo hhi g' sp helv
    exact ⟨low, high, ha, hb, hc⟩
  | inr h =>
    rw [h]
    obtain ⟨ha, hb, hc⟩ := lowerElev_inv s.1 s.2 low high helev hlo hhi
    exact ⟨low, high, ha, hb, hc⟩

/-- Claim C5: every elevator produced by parsing satisfies `low ≤ high`;
and an elevator whose floor lies in `[low, high]` stays within `[low, high]`
after any sequence of `elevate` / `lowerElev` operations. -/
theorem elevator_range_invariant :
    (∀ (data : String) (loc : GridLoc) (low high : Int),
      (ParseLevel data).1.grid loc = some (.elevator low high) → low ≤ high) ∧
    (∀ s t : Grid × GridLoc, ElevInv s → Relation.ReflTransGen ElevStep s t → ElevInv t) := by
  constructor
  · exact fun data loc low high h => parseLevelElevOK data loc low high h
  · intro s t hs hst
    induction hst with
    | refl => exact hs
    | tail hab hbc ih => exact elevStep_preserve _ _ ih hbc

/-- Witness for C5: the `"e-"` level parses to an elevator with range
`[0, 1]`, and the demo elevator state satisfies the invariant after the
empty operation sequence. -/
theorem elevator_range_invariant_witness :
    (0 : Int) ≤ 1 ∧ ElevInv (elevDemoGrid, ⟨0, 0, 0⟩) :=
  ⟨elevator_range_invariant.1 "e-" ⟨1, 1, 0⟩ 0 1 (by decide),
    elevator_range_invariant.2 (elevDemoGrid, ⟨0, 0, 0⟩) (elevDemoGrid, ⟨0, 0, 0⟩)
      ⟨0, 2, by decide, by decide, by decide⟩ Relation.ReflTransGen.refl⟩

/-- The runtime state of the `Level` controller that the step logic
touches: the occupancy grid, the gopher's location, the step counter
(`game.steps`), the `animating` latch and the queued movement animations
(source, target). -/
structure LevelState where
  grid : Grid
  gopherLoc : GridLoc
  steps : Nat
  animating : Bool
  anims : List (GridLoc × GridLoc)

/-- `(l *Level) moveGopherTo(pos)`: increment the step counter, set the
`animating` latch, move the gopher in the grid (`animate`) and enqueue its
movement animation.  The walk/fall sound choice and the completion
callback are presentation-side and deferred, respectively. -/
def moveGopherTo (s : LevelState) (pos : GridLoc) : LevelState :=
  { s with
    steps := s.steps + 1
    animating := true
    grid := fun q => if q = pos then some .gopher else if q = s.gopherLoc then none else s.grid q
    gopherLoc := pos
    anims := s.anims ++ [(s.gopherLoc, pos)] }

/-- `pushBox` acting on the level state: classify the pile, apply the
horizontal moves to the grid and enqueue their animations (the `toFall`
suffix is handled by deferred callbacks and changes nothing here). -/
def pushBoxState (fuel : Nat) (s : LevelState) (boxLoc dest : GridLoc) : Option LevelState :=
  (pushScan s.grid fuel boxLoc dest false).map (fun p =>
    { s with
      grid := pushApply s.grid p.1 dest.z dest.x
      anims := s.anims ++ p.1.map (fun bl => (bl, ⟨dest.z, dest.x, bl.y⟩)) })

/-- `(l *Level) step(zd, xd)`: ignored while `animating`; otherwise look
at the destination cell one step away at the gopher's floor: empty →
move; pushable occupant → push it if the cell two steps away is empty,
else bump; non-pushable occupant → bump.  A bump only plays a sound, so
the state is returned unchanged.  The gopher rotation and restart-button
enable are presentation-side. -/
def step (fuel : Nat) (s : LevelState) (zd xd : Int) : Option LevelState :=
  if s.animating then some s
  else
    match s.grid ⟨s.gopherLoc.z + zd, s.gopherLoc.x + xd, s.gopherLoc.y⟩ with
    | some c =>
      if c.isPushable then
        match s.grid ⟨s.gopherLoc.z + 2 * zd, s.gopherLoc.x + 2 * xd, s.gopherLoc.y⟩ with
        | none =>
          (pushBoxState fuel s ⟨s.gopherLoc.z + zd, s.gopherLoc.x + xd, s.gopherLoc.y⟩
            ⟨s.gopherLoc.z + 2 * zd, s.gopherLoc.x + 2 * xd, s.gopherLoc.y⟩).map
            (fun s' => moveGopherTo s' ⟨s.gopherLoc.z + zd, s.gopherLoc.x + xd, s.gopherLoc.y⟩)
        | some _ => some s
      else some s
    | none => some (moveGopherTo s ⟨s.gopherLoc.z + zd, s.gopherLoc.x + xd, s.gopherLoc.y⟩)

/-- Claim C6: when the destination cell holds a pushable object and the
cell two steps away is occupied, or when the destination holds a
non-pushable object, the step is a bump: the whole state — occupancy
grid, object locations, step counter and animation queue — is returned
unchanged. -/
theorem step_bump_no_change (fuel : Nat) (s : LevelState) (zd xd : Int)
    (hanim : s.animating = false) :
    (∀ c, s.grid ⟨s.gopherLoc.z + zd, s.gopherLoc.x + xd, s.gopherLoc.y⟩ = some c →
      c.isPushable = true →
      ∀ c2, s.grid ⟨s.gopherLoc.z + 2 * zd, s.gopherLoc.x + 2 * xd, s.gopherLoc.y⟩ = some c2 →
        step fuel s zd xd = some s) ∧
    (∀ c, s.grid ⟨s.gopherLoc.z + zd, s.gopherLoc.x + xd, s.gopherLoc.y⟩ = some c →
      c.isPushable = false → step fuel s zd xd = some s) := by
  constructor
  · intro c hc hpush c2 hc2
    unfold step
    rw [hanim]
    simp only [Bool.false_eq_true, if_false]
    rw [hc]
    dsimp only
    rw [if_pos hpush, hc2]
  · intro c hc hpush
    unfold step
    rw [hanim]
    simp only [Bool.false_eq_true, if_false]
    rw [hc]
    dsimp only
    rw [if_neg (by rw [hpush]; exact Bool.false_ne_true)]

/-- Concrete state for the C6/C9 witnesses: gopher at (1,1,1); a box at
(1,2,1) backed by a block at (1,3,1) (blocked push), and a block at
(1,0,1) (plain bump). -/
def bumpDemoState : LevelState where
  grid := fun q =>
    if q = ⟨1, 1, 1⟩ then some .gopher
    else if q = ⟨1, 2, 1⟩ then some .box
    else if q = ⟨1, 3, 1⟩ then some .block
    else if q = ⟨1, 0, 1⟩ then some .block
    else none
  gopherLoc := ⟨1, 1, 1⟩
  steps := 0
  animating := false
  anims := []

/-- Witness for C6: both bump cases on `bumpDemoState` leave the state
unchanged. -/
theorem step_bump_no_change_witness :
    step 4 bumpDemoState 0 1 = some bumpDemoState ∧
    step 4 bumpDemoState 0 (-1) = some bumpDemoState := by
  constructor
  · exact (step_bump_no_change 4 bumpDemoState 0 1 (by decide)).1 .box (by decide) (by decide)
      .block (by decide)
  · exact (step_bump_no_change 4 bumpDemoState 0 (-1) (by decide)).2 .block (by decide)
      (by decide)

/-- Claim C9: no player step is processed while `animating` is true — the
step returns the state unchanged — and every accepted step that is not a
bump (i.e. that actually moves the gopher, possibly pushing) has set
`animating` to true in the resulting state, before any animation can
complete. -/
theorem step_animating_gate (fuel : Nat) (s : LevelState) (zd xd : Int) :
    (s.animating = true → step fuel s zd xd = some s) ∧
    (s.animating = false → ∀ s', step fuel s zd xd = some s' →
      s' = s ∨ s'.animating = true) := by
  constructor
  · intro h
    unfold step
    rw [h]
    simp
  · intro hanim s' h
    unfold step at h
    rw [hanim] at h
    simp only [Bool.false_eq_true, if_false] at h
    cases hc : s.grid ⟨s.gopherLoc.z + zd, s.gopherLoc.x + xd, s.gopherLoc.y⟩ with
    | none =>
      rw [hc] at h
      dsimp only at h
      rw [Option.some.injEq] at h
      subst h
      right
      rfl
    | some c =>
      rw [hc] at h
      dsimp only at h
      by_cases hpush : c.isPushable = true
      · rw [if_pos hpush] at h
        cases hc2 : s.grid ⟨s.gopherLoc.z + 2 * zd, s.gopherLoc.x + 2 * xd, s.gopherLoc.y⟩ with
        | none =>
          rw [hc2] at h
          cases hps : pushBoxState fuel s ⟨s.gopherLoc.z + zd, s.gopherLoc.x + xd, s.gopherLoc.y⟩
              ⟨s.gopherLoc.z + 2 * zd, s.gopherLoc.x + 2 * xd, s.gopherLoc.y⟩ with
          | none =>
            rw [hps] at h
            exact absurd h (by simp)
          | some s1 =>
            rw [hps] at h
            simp only [Option.map_some'] at h
            rw [Option.some.injEq] at h
            subst h
            right
            rfl
        | some c2 =>
          rw [hc2] at h
          rw [Option.some.injEq] at h
          exact Or.inl h.symm
      · rw [if_neg hpush] at h
        rw [Option.some.injEq] at h
        exact Or.inl h.symm

/-- State for the animating half of the C9 witness. -/
def animDemoState : LevelState := { bumpDemoState with animating := true }

/-- Witness for C9: with the latch set the step is ignored; with the
latch clear every accepted step either bumps or sets the latch. -/
theorem step_animating_gate_witness :
    step 4 animDemoState 0 1 = some animDemoState ∧
    (∀ s', step 4 bumpDemoState 0 1 = some s' → s' = bumpDemoState ∨ s'.animating = true) :=
  ⟨(step_animating_gate 4 animDemoState 0 1).1 (by decide),
    (step_animating_gate 4 bumpDemoState 0 1).2 (by decide)⟩
